import Mathlib

/-!
Verification development for the lx log-monitoring engine.
Shallow embedding of the core data structures and operations:
entry model, level detection, ring buffer, entry pool, context
window, rate detector, grok parser, JSON sink and the pipeline
orchestrator, each translated from the corresponding Go source.
-/

namespace Lx

/-! ### Entry model (internal/entry/entry.go) -/

/-- Severity levels, from entry.go (`LevelUnknown` .. `LevelFatal`). -/
inductive Level where
  | unknown
  | debug
  | info
  | warn
  | error
  | fatal
deriving DecidableEq, Inhabited

/-- `Level.String` from entry.go. -/
def levelString : Level → String
  | .debug => "DEBUG"
  | .info => "INFO"
  | .warn => "WARN"
  | .error => "ERROR"
  | .fatal => "FATAL"
  | .unknown => "UNKNOWN"

/-- `ParseLevel` from entry.go (explicit case list, as in the source). -/
def parseLevel (s : String) : Level :=
  if s = "DEBUG" ∨ s = "debug" ∨ s = "Debug" then .debug
  else if s = "INFO" ∨ s = "info" ∨ s = "Info" then .info
  else if s = "WARN" ∨ s = "warn" ∨ s = "Warn" ∨ s = "WARNING" ∨ s = "warning" then .warn
  else if s = "ERROR" ∨ s = "error" ∨ s = "Error" ∨ s = "ERR" ∨ s = "err" then .error
  else if s = "FATAL" ∨ s = "fatal" ∨ s = "Fatal" ∨ s = "PANIC" ∨ s = "panic" then .fatal
  else .unknown

/-- `LogEntry` from entry.go.  The Go `time.Time` timestamp is modelled as
nanoseconds since the epoch; the `Fields` map as an association list with
unique keys; `Raw` as a byte list. -/
structure LogEntry where
  timestamp : Nat := 0
  stream : String := ""
  level : Level := .unknown
  source : String := ""
  message : String := ""
  fields : List (String × String) := []
  raw : List Nat := []
  seq : Nat := 0
deriving DecidableEq, Inhabited

/-! ### Entry pool (internal/buffer/pool.go) -/

/-- `Get` from pool.go: acquiring an entry from the pool clears the fields
map, empties the message/stream/source strings, truncates the raw byte span
to length zero and resets level and seq.  The timestamp field is not
touched by the Go code, so the model keeps it. -/
def poolGet (e : LogEntry) : LogEntry :=
  { e with
    fields := []
    message := ""
    raw := []
    stream := ""
    source := ""
    level := .unknown
    seq := 0 }

/-! ### Ring buffer (internal/buffer/ring.go) -/

/-- `Ring` from ring.go: fixed-capacity circular buffer. `entries` always
has length `capacity` (Go allocates the backing slice up front). -/
structure Ring (α : Type) where
  entries : List α
  head : Nat
  count : Nat
  capacity : Nat
  dropped : Nat
deriving DecidableEq

/-- A ring with a (positive) capacity already normalized, as built by
`NewRing` after its capacity check: a zero-filled backing slice. -/
def mkRing (α : Type) [Inhabited α] (c : Nat) : Ring α :=
  { entries := List.replicate c default
    head := 0
    count := 0
    capacity := c
    dropped := 0 }

/-- `NewRing` from ring.go: a non-positive capacity is replaced by 1024. -/
def NewRing (α : Type) [Inhabited α] (capacity : Int) : Ring α :=
  if capacity ≤ 0 then mkRing α 1024 else mkRing α capacity.toNat

namespace Ring

/-- `Ring.Push` from ring.go: write at `head`, advance `head` modulo the
capacity, then either grow `count` or bump `dropped`. -/
def Push (e : α) (r : Ring α) : Ring α :=
  { r with
    entries := r.entries.set r.head e
    head := (r.head + 1) % r.capacity
    count := if r.count < r.capacity then r.count + 1 else r.count
    dropped := if r.count < r.capacity then r.dropped else r.dropped + 1 }

/-- `Ring.Snapshot` from ring.go: when not full, the first `count` slots;
when full, the slots from `head` to the end followed by the slots before
`head`.  The result has length `count` (the Go code allocates `count`
slots and copies into them). -/
def Snapshot (r : Ring α) : List α :=
  if r.count < r.capacity then
    r.entries.take r.count
  else
    ((r.entries.drop (r.head % r.capacity)) ++ (r.entries.take (r.head % r.capacity))).take r.count

/-- `Ring.Len` from ring.go. -/
def Len (r : Ring α) : Nat := r.count

/-- `Ring.Dropped` from ring.go. -/
def Dropped (r : Ring α) : Nat := r.dropped

/-- `Ring.Cap` from ring.go. -/
def Cap (r : Ring α) : Nat := r.capacity

/-- Pushing a whole list of entries in order. -/
def pushAll (r : Ring α) (xs : List α) : Ring α :=
  xs.foldl (fun r e => Push e r) r

end Ring

/-! ### Level auto-detection (filter, `DetectLevel` / `LevelFilter`) -/

/-- A word character in Go regexp terms: `[0-9A-Za-z_]` (ASCII only). -/
def isWordChar (c : Char) : Bool :=
  (c ≥ 'a' && c ≤ 'z') || (c ≥ 'A' && c ≤ 'Z') || (c ≥ '0' && c ≤ '9') || c = '_'

/-- The alternatives of the level regex
`(?i)\b(DEBUG|TRACE|INFO|WARN(?:ING)?|ERR(?:OR)?|FATAL|PANIC|CRITICAL)\b`
in the engine's preference order: alternation left to right, with each
greedy optional group tried long-form first. -/
def levelTokens : List String :=
  ["DEBUG", "TRACE", "INFO", "WARNING", "WARN", "ERROR", "ERR", "FATAL", "PANIC", "CRITICAL"]

/-- Case-insensitive prefix test: does `cs` start with the (uppercase)
token `tok`? -/
def startsWithCI : List Char → List Char → Bool
  | [], _ => true
  | _ :: _, [] => false
  | t :: ts, c :: cs => (c.toUpper = t) && startsWithCI ts cs

/-- Word-boundary check after a token of length `n`: the position is a `\b`
iff the text ends there or the next character is not a word character
(every token consists of word characters). -/
def boundaryAfter (cs : List Char) (n : Nat) : Bool :=
  match cs.drop n with
  | [] => true
  | c :: _ => !(isWordChar c)

/-- Does one of the level tokens match at the current position (which is
already known to sit at a `\b`)? Returns the first matching alternative. -/
def tokenHere (cs : List Char) : Option String :=
  levelTokens.find? (fun tok => startsWithCI tok.data cs && boundaryAfter cs tok.length)

/-- Leftmost-first search of the level regex: scan positions left to
right; at a position whose left side is a word boundary, try the
alternatives in preference order.  `prev` is the character preceding the
current position, if any. -/
def findLevelToken : Option Char → List Char → Option String
  | _, [] => none
  | prev, c :: rest =>
    let boundaryBefore := match prev with
      | none => true
      | some p => !(isWordChar p)
    match (if boundaryBefore then tokenHere (c :: rest) else none) with
    | some tok => some tok
    | none => findLevelToken (some c) rest

/-- The keyword table `levelPatterns` lookup from the filter package:
maps the uppercased matched token to a level, scanning the groups
ERROR/ERR, WARN/WARNING, INFO, DEBUG/TRACE, FATAL/PANIC/CRITICAL in
order. -/
def levelOfKeyword (kw : String) : Level :=
  if kw = "ERROR" ∨ kw = "ERR" then .error
  else if kw = "WARN" ∨ kw = "WARNING" then .warn
  else if kw = "INFO" then .info
  else if kw = "DEBUG" ∨ kw = "TRACE" then .debug
  else if kw = "FATAL" ∨ kw = "PANIC" ∨ kw = "CRITICAL" then .fatal
  else .unknown

/-- `DetectLevel` from the filter package: find the leftmost level token
in the message (case-insensitive, word-delimited) and map it through the
keyword table; `LevelUnknown` when the regex finds no match.  The found
token is already uppercase, matching Go's `strings.ToUpper` on the
matched text. -/
def DetectLevel (msg : String) : Level :=
  match findLevelToken none msg.data with
  | none => .unknown
  | some kw => levelOfKeyword kw

/-- `LevelFilter.Match`: when the entry's level is unknown it detects the
level from the message and caches it onto the entry (the Go code mutates
through the pointer; the model returns the updated entry). -/
def levelFilterMatch (allowed : List Level) (e : LogEntry) : Bool × LogEntry :=
  if e.level = .unknown then
    let lv := DetectLevel e.message
    (allowed.contains lv, { e with level := lv })
  else
    (allowed.contains e.level, e)

/-! ### Context window (internal/filter/context.go) -/

/-- `ContextBuffer` state.  `beforeN`/`afterN`/`afterCount` are Go `int`s,
modelled as `Int`; `ringPos` only ever grows so it is a `Nat`. -/
structure ContextBuffer where
  beforeN : Int
  afterN : Int
  ringBuf : List LogEntry
  ringPos : Nat
  afterCount : Int
deriving DecidableEq

/-- `NewContextBuffer`: history size is `before + 1`, at least 1; the Go
backing slice starts zero-filled. -/
def NewContextBuffer (before after : Int) : ContextBuffer :=
  let size : Nat := if before + 1 < 1 then 1 else (before + 1).toNat
  { beforeN := before
    afterN := after
    ringBuf := List.replicate size default
    ringPos := 0
    afterCount := 0 }

/-- `ContextBuffer.Process` from context.go.  The wrapped filter may
mutate the entry (Go passes a pointer), so it is modelled as
`LogEntry → Bool × LogEntry`.  Crucially the code evaluates the filter
first and only then stores the entry into the circular history, so the
stored copy is the post-evaluation entry. -/
def ContextBuffer.Process (f : LogEntry → Bool × LogEntry) (cb : ContextBuffer)
    (e : LogEntry) : List LogEntry × ContextBuffer :=
  let isMatch := (f e).1
  let e1 := (f e).2
  let size := cb.ringBuf.length
  let rb := cb.ringBuf.set (cb.ringPos % size) e1
  let pos := cb.ringPos + 1
  if isMatch then
    let start : Nat := ((pos : Int) - cb.beforeN - 1).toNat
    let idxs := List.range' start (pos - 1 - start)
    let beforeLines := idxs.map (fun i => rb.getD (i % size) default)
    (beforeLines ++ [e1],
      { cb with ringBuf := rb, ringPos := pos, afterCount := cb.afterN })
  else if cb.afterCount > 0 then
    ([e1], { cb with ringBuf := rb, ringPos := pos, afterCount := cb.afterCount - 1 })
  else
    ([], { cb with ringBuf := rb, ringPos := pos })

/-- Process a whole line sequence, concatenating the emitted entries. -/
def ContextBuffer.processAll (f : LogEntry → Bool × LogEntry) (cb : ContextBuffer)
    (es : List LogEntry) : List LogEntry × ContextBuffer :=
  es.foldl (fun acc e =>
    let r := ContextBuffer.Process f acc.2 e
    (acc.1 ++ r.1, r.2)) ([], cb)

/-! ### Rate detector (internal/monitor/stats.go) -/

/-- Nanoseconds in a second (`time.Second`). -/
def nsPerSec : Nat := 1000000000

/-- `time.Time.Truncate(time.Second)` on a nanosecond timestamp. -/
def truncSec (t : Nat) : Nat := (t / nsPerSec) * nsPerSec

/-- `RateDetector` state: the two parallel slices `buckets`/`timestamps`
are modelled as one list of (truncated timestamp, count) pairs.  The Go
`float64` threshold is modelled as a rational; on the integral values the
claims exercise, `float64` arithmetic is exact. -/
structure RateDetector where
  window : Nat
  threshold : ℚ
  buckets : List (Nat × Int)

/-- `NewRateDetector`: a window below one second becomes 10s, a
non-positive threshold becomes 3.0. -/
def NewRateDetector (window : Int) (threshold : ℚ) : RateDetector :=
  { window := if window < (nsPerSec : Int) then 10 * nsPerSec else window.toNat
    threshold := if threshold ≤ 0 then 3 else threshold
    buckets := [] }

/-- `RateDetector.prune`: drop leading buckets whose timestamp is before
`now - window`.  (Go time subtraction can go below the epoch only for
times this model never uses; `Nat` truncation matches on all inputs the
detector sees.) -/
def RateDetector.prune (now : Nat) (r : RateDetector) : RateDetector :=
  { r with buckets := r.buckets.dropWhile (fun b => b.1 < now - r.window) }

/-- `RateDetector.isSpiking`: at least 3 buckets, and the latest bucket
count exceeds `threshold ×` the average of all earlier buckets (false
when that average is zero).  The average is `sum / (len − 1)` with
`len − 1 ≥ 2`, so it is zero exactly when `sum` is, and the comparison
`latest > (sum / (len − 1)) · threshold` is written with its (positive)
denominators cleared — an exact rearrangement, stated and proved in the
rational form by `isSpiking_characterization`. -/
def RateDetector.isSpiking (r : RateDetector) : Bool :=
  if r.buckets.length < 3 then false
  else
    let sum : Int := (r.buckets.dropLast.map Prod.snd).sum
    if sum = 0 then false
    else
      let latest : Int := (r.buckets.getLastD (0, 0)).2
      decide (latest * ((r.buckets.length : Int) - 1) * (r.threshold.den : Int)
        > sum * r.threshold.num)

/-- `RateDetector.Record` at an explicit current time `now` (nanoseconds):
prune, then increment the current second's bucket or open a new one, then
report whether the detector is spiking. -/
def RateDetector.Record (now : Nat) (r : RateDetector) : Bool × RateDetector :=
  let r := r.prune now
  let t := truncSec now
  let bk :=
    match r.buckets.getLast? with
    | some (ts, c) => if ts = t then r.buckets.dropLast ++ [(ts, c + 1)] else r.buckets ++ [(t, 1)]
    | none => [(t, 1)]
  let r1 := { r with buckets := bk }
  (r1.isSpiking, r1)

/-- Record a sequence of events at the given times, collecting the spike
reports in order. -/
def RateDetector.recordAll (r : RateDetector) (times : List Nat) : List Bool × RateDetector :=
  times.foldl (fun acc t =>
    let s := RateDetector.Record t acc.2
    (acc.1 ++ [s.1], s.2)) ([], r)

/-! ### Grok parser (parser package) -/

/-- One element of a compiled grok pattern: literal text, an anonymous
token `%\x7bNAME\x7d` (compiled to a non-capturing group) or a named
token `%\x7bNAME:field\x7d` (compiled to a capturing group). -/
inductive GrokTok where
  | lit (s : String)
  | anon (pname : String)
  | named (pname field : String)
deriving DecidableEq

/-- Opening brace character (written by code point to keep braces out of
string literals). -/
def lbrace : Char := Char.ofNat 123

/-- Closing brace character. -/
def rbrace : Char := Char.ofNat 125

/-- Take a maximal nonempty run of word characters (`\w+`). -/
def takeWordRun (cs : List Char) : List Char × List Char :=
  match cs with
  | [] => ([], [])
  | c :: rest =>
    if isWordChar c then
      let r := takeWordRun rest
      (c :: r.1, r.2)
    else
      ([], cs)

/-- Try to read a grok token `%\x7b\w+(:\w+)?\x7d` at the current
position (the leading `%` and brace already seen); mirrors the token
regex `%\\\x7b(\w+)(?::(\w+))?\\\x7d` of `compileGrokPattern`. -/
def readGrokTok (cs : List Char) : Option (GrokTok × List Char) :=
  let p := takeWordRun cs
  if p.1.isEmpty then none
  else
    match p.2 with
    | c :: rest =>
      if c = rbrace then
        some (.anon (String.mk p.1), rest)
      else if c = ':' then
        let q := takeWordRun rest
        if q.1.isEmpty then none
        else
          match q.2 with
          | d :: rest2 => if d = rbrace then some (.named (String.mk p.1) (String.mk q.1), rest2) else none
          | [] => none
      else none
    | [] => none

/-- Tokenize a grok pattern: every occurrence of the token syntax becomes
a token, all other text is literal (kept as single-character literals,
which is equivalent for matching).  This matches `compileGrokPattern`,
which finds all token occurrences and substitutes them left to right
(no builtin sub-pattern contains the token syntax, so sequential
first-occurrence replacement is plain in-place substitution).  The fuel
argument is the remaining text length; every step consumes at least one
character. -/
def grokTokenizeAux : Nat → List Char → List GrokTok
  | 0, _ => []
  | _, [] => []
  | fuel + 1, c :: rest =>
    if c = '%' then
      match rest with
      | b :: rest1 =>
        if b = lbrace then
          match readGrokTok rest1 with
          | some (tok, rest2) => tok :: grokTokenizeAux fuel rest2
          | none => .lit (String.mk [c]) :: grokTokenizeAux fuel rest
        else .lit (String.mk [c]) :: grokTokenizeAux fuel rest
      | [] => [.lit (String.mk [c])]
    else
      .lit (String.mk [c]) :: grokTokenizeAux fuel rest

/-- Tokenize a grok pattern string. -/
def grokTokenize (pattern : String) : List GrokTok :=
  grokTokenizeAux pattern.data.length pattern.data

/-- The names of the builtin pattern table `builtinPatterns`. -/
def builtinNames : List String :=
  ["IP", "IPV6", "WORD", "INT", "NUMBER", "NOTSPACE", "DATA", "GREEDYDATA",
   "TIMESTAMP", "LOGLEVEL", "PATH", "URI", "UUID", "MAC", "HTTPMETHOD",
   "STATUSCODE", "QS"]

/-- `compileGrokPattern`: resolve every token against the builtin table
(unknown names are a compile error) and record the field-name slot list —
the field name for a named token, the empty string for an anonymous
token, in token order. -/
def compileGrokPattern (pattern : String) : Except String (List GrokTok × List String) :=
  let toks := grokTokenize pattern
  if toks.all (fun t => match t with
      | .anon p => builtinNames.contains p
      | .named p _ => builtinNames.contains p
      | .lit _ => true) then
    .ok (toks, toks.filterMap (fun t => match t with
      | .anon _ => some ""
      | .named _ f => some f
      | .lit _ => none))
  else
    .error "unknown grok pattern"

/-- Lengths of the nonempty digit prefixes up to 3 digits (`\d{1,3}`), in
greedy backtracking preference order (longest first). -/
def digitAlts13 (cs : List Char) : List Nat :=
  let run := (cs.takeWhile Char.isDigit).length
  let k := min run 3
  (List.range k).map (fun i => k - i)

/-- Candidate match lengths at the current position for the builtin
sub-patterns this development exercises, in the regex engine's
backtracking preference order.  `WORD` is `\w+` (greedy), `IP` is
`(?:\d{1,3}\.){3}\d{1,3}`, `INT` is `[+-]?\d+`, `NOTSPACE` is `\S+`. -/
def builtinAlts (pname : String) (cs : List Char) : List Nat :=
  if pname = "WORD" then
    let k := (cs.takeWhile isWordChar).length
    (List.range k).map (fun i => k - i)
  else if pname = "NOTSPACE" then
    let k := (cs.takeWhile (fun c => !(c = ' ' ∨ c = '\t' ∨ c = '\n' ∨ c = '\r'))).length
    (List.range k).map (fun i => k - i)
  else if pname = "IP" then
    (digitAlts13 cs).flatMap (fun a =>
      if (cs.drop a).head? = some '.' then
        (digitAlts13 (cs.drop (a + 1))).flatMap (fun b =>
          if (cs.drop (a + 1 + b)).head? = some '.' then
            (digitAlts13 (cs.drop (a + 1 + b + 1))).flatMap (fun c =>
              if (cs.drop (a + 1 + b + 1 + c)).head? = some '.' then
                (digitAlts13 (cs.drop (a + 1 + b + 1 + c + 1))).map
                  (fun d => a + 1 + b + 1 + c + 1 + d)
              else [])
          else [])
      else [])
  else if pname = "INT" then
    let sgn := if cs.head? = some '+' ∨ cs.head? = some '-' then 1 else 0
    let k := ((cs.drop sgn).takeWhile Char.isDigit).length
    (List.range k).map (fun i => sgn + (k - i))
  else []

/-- Sequence matching of a compiled token list at a fixed position, with
backtracking in the engine's preference order.  On success returns the
total consumed length together with the capture list (one capture per
named token, in token order — anonymous tokens compile to non-capturing
groups and yield no capture). -/
def seqMatch : List GrokTok → List Char → Option (Nat × List String)
  | [], _ => some (0, [])
  | .lit s :: rest, cs =>
    if cs.take s.data.length = s.data then
      (seqMatch rest (cs.drop s.data.length)).map (fun r => (s.data.length + r.1, r.2))
    else none
  | .anon p :: rest, cs =>
    (builtinAlts p cs).firstM (fun n =>
      (seqMatch rest (cs.drop n)).map (fun r => (n + r.1, r.2)))
  | .named p _ :: rest, cs =>
    (builtinAlts p cs).firstM (fun n =>
      (seqMatch rest (cs.drop n)).map (fun r => (n + r.1, String.mk (cs.take n) :: r.2)))

/-- Unanchored leftmost search (`FindStringSubmatch`): try successive
start positions; on success return the submatch list — the full match
text first, then the captures. -/
def findSubmatch (toks : List GrokTok) : List Char → Option (List String)
  | [] =>
    (seqMatch toks []).map (fun r => String.mk [] :: r.2)
  | c :: cs =>
    match seqMatch toks (c :: cs) with
    | some r => some (String.mk ((c :: cs).take r.1) :: r.2)
    | none => findSubmatch toks cs

/-- Insert or update a key in the fields association list (Go map
assignment). -/
def upsert (m : List (String × String)) (k v : String) : List (String × String) :=
  if m.any (fun p => p.1 = k) then
    m.map (fun p => if p.1 = k then (k, v) else p)
  else
    m ++ [(k, v)]

/-- The field-population loop of `GrokParser.Parse`: for each slot `i` of
`fieldNames`, assign `matches[i+1]` to that field when the index is in
range and the slot is named. -/
def assignFields (fields0 : List (String × String)) (names ms : List String) :
    List (String × String) :=
  (List.range names.length).foldl (fun acc i =>
    let name := names.getD i ""
    if i + 1 < ms.length ∧ name ≠ "" then
      upsert acc name (ms.getD (i + 1) "")
    else acc) fields0

/-- `GrokParser.Parse`: no regex match leaves the entry unchanged and
returns false; a match assigns captured values per `assignFields`. -/
def grokParse (toks : List GrokTok) (names : List String) (e : LogEntry) :
    Bool × LogEntry :=
  match findSubmatch toks e.message.data with
  | none => (false, e)
  | some ms => (true, { e with fields := assignFields e.fields names ms })

/-! ### JSON sink (sink package, `jsonEntry` / `JSONSink.Write`) -/

/-- Nanoseconds per millisecond. -/
def nsPerMs : Nat := 1000000

/-- The JSON-lines wire shape `jsonEntry`.  The RFC3339 timestamp string
with exactly three fractional digits carries precisely the millisecond
count, so it is modelled as milliseconds; the `omitempty` keys are
`Option`s (`none` = key omitted). -/
structure JsonEntry where
  timestamp : Nat
  stream : String
  level : Option String
  source : Option String
  message : String
  fields : Option (List (String × String))
deriving DecidableEq

/-- `JSONSink.Write`'s serialization step: format the timestamp with
millisecond precision (Go's `.000` format truncates), always emit stream
and message, emit the level string only for a known level, and let
`omitempty` drop an empty source string and an empty fields map. -/
def jsonWrite (e : LogEntry) : JsonEntry :=
  { timestamp := e.timestamp / nsPerMs
    stream := e.stream
    level := if e.level = .unknown then none else some (levelString e.level)
    source := if e.source = "" then none else some e.source
    message := e.message
    fields := if e.fields.isEmpty then none else some e.fields }

/-- Modelled from the spec: the repository has no JSON-lines reader (the
sink is write-only), so parsing is taken from the §6 wire shape — missing
level means unknown (level strings parse via `ParseLevel` from entry.go),
missing source means empty, missing fields means an empty map, and the
timestamp carries millisecond precision. -/
def jsonParse (j : JsonEntry) : LogEntry :=
  { timestamp := j.timestamp * nsPerMs
    stream := j.stream
    level := match j.level with
      | none => .unknown
      | some s => parseLevel s
    source := j.source.getD ""
    message := j.message
    fields := j.fields.getD []
    raw := []
    seq := 0 }

/-! ### Pipeline orchestrator (pipeline package, `Run`) -/

/-- Sink calls observed by a consumer, identified by its registration
index. -/
inductive SinkEv where
  | write (sink : Nat) (e : LogEntry)
  | flush (sink : Nat)
  | close (sink : Nat)
deriving DecidableEq

/-- A consumer model: its name plus the outcome of each call (`some err`
is a Go error, `none` success). -/
structure SinkModel where
  name : String
  writeRes : LogEntry → Option String
  flushRes : Option String
  closeRes : Option String

/-- `MatchMode` from the filter package. -/
inductive MatchMode where
  | matchAny
  | matchAll
deriving DecidableEq

/-- `Chain.Match`: an empty chain passes everything; `matchAll` is a
short-circuit conjunction, `matchAny` a short-circuit disjunction.
Filters may mutate the entry, so the threaded entry is returned. -/
def chainMatchGo (e : LogEntry) : List (LogEntry → Bool × LogEntry) → MatchMode →
    Bool × LogEntry
  | [], .matchAll => (true, e)
  | f :: fs, .matchAll =>
    let r := f e
    if r.1 then chainMatchGo r.2 fs .matchAll else (false, r.2)
  | [], .matchAny => (false, e)
  | f :: fs, .matchAny =>
    let r := f e
    if r.1 then (true, r.2) else chainMatchGo r.2 fs .matchAny

/-- `Chain.Match` including the empty-chain pass-through. -/
def chainMatch (filters : List (LogEntry → Bool × LogEntry)) (mode : MatchMode)
    (e : LogEntry) : Bool × LogEntry :=
  if filters.isEmpty then (true, e) else chainMatchGo e filters mode

/-- Pipeline configuration (`pipeline.Config`).  `filters = none` models a
nil `*filter.Chain`; `ctx = none` a nil `*filter.ContextBuffer`.  The
context window carries the wrapped filter function with it. -/
structure PipelineConfig where
  filters : Option (List (LogEntry → Bool × LogEntry) × MatchMode)
  sinks : List SinkModel
  ctx : Option ((LogEntry → Bool × LogEntry) × ContextBuffer)
  ringBuf : Option (Ring LogEntry)

/-- Mutable pipeline state during a run. -/
structure PipeState where
  total : Nat
  matched : Nat
  ring : Option (Ring LogEntry)
  ctxSt : Option ContextBuffer
  trace : List SinkEv

/-- Write one entry to every sink in registration order; the first error
aborts (wrapped exactly as `pipeline: write to NAME: err`).  The failing
sink's write call is still recorded — the call happened and returned the
error. -/
def writeSinks (sinks : List SinkModel) (i : Nat) (e : LogEntry) :
    List SinkEv × Option String :=
  match sinks with
  | [] => ([], none)
  | s :: rest =>
    match s.writeRes e with
    | some err => ([.write i e], some ("pipeline: write to " ++ s.name ++ ": " ++ err))
    | none =>
      let r := writeSinks rest (i + 1) e
      (.write i e :: r.1, r.2)

/-- Deliver a list of surviving entries (the context window's output):
each one bumps the matched counter and is written to every sink, aborting
on the first write error. -/
def deliverAll (sinks : List SinkModel) (st : PipeState) :
    List LogEntry → PipeState × Option String
  | [] => (st, none)
  | e :: rest =>
    let w := writeSinks sinks 0 e
    let st1 := { st with matched := st.matched + 1, trace := st.trace ++ w.1 }
    match w.2 with
    | some err => (st1, some err)
    | none => deliverAll sinks st1 rest

/-- The plain-chain decision of the `Run` loop: a nil chain or a chain of
length zero passes the entry through, otherwise `Chain.Match` decides
(and may mutate the threaded entry). -/
def filterDecision (cfg : PipelineConfig) (e : LogEntry) : Bool × LogEntry :=
  match cfg.filters with
  | some (fs, mode) => if fs.length > 0 then chainMatch fs mode e else (true, e)
  | none => (true, e)

/-- The loop body of `pipeline.Run` for one received entry: count it,
auto-detect the level if unset, push to the ring buffer if configured,
then either route through the context window (skipping the plain chain)
or apply the plain filter chain and drop non-matches. -/
def stepEntry (cfg : PipelineConfig) (st : PipeState) (e : LogEntry) :
    PipeState × Option String :=
  let e := if e.level = .unknown then { e with level := DetectLevel e.message } else e
  let st := { st with total := st.total + 1 }
  let st := { st with ring := st.ring.map (Ring.Push e) }
  match cfg.ctx with
  | some (f, _) =>
    match st.ctxSt with
    | some cb =>
      let p := ContextBuffer.Process f cb e
      deliverAll cfg.sinks { st with ctxSt := some p.2 } p.1
    | none => (st, none)
  | none =>
    let m := filterDecision cfg e
    if m.1 then deliverAll cfg.sinks st [m.2] else (st, none)

/-- The streaming phase of `Run`: process entries until the source is
exhausted or a sink write fails. -/
def streamPhase (cfg : PipelineConfig) (st : PipeState) :
    List LogEntry → PipeState × Option String
  | [] => (st, none)
  | e :: rest =>
    let r := stepEntry cfg st e
    match r.2 with
    | some err => (r.1, some err)
    | none => streamPhase cfg r.1 rest

/-- The draining phase of `Run`: flush then close every sink in
registration order, discarding their errors (`_ = s.Flush()`,
`_ = s.Close()`). -/
def drainTrace (n : Nat) : List SinkEv :=
  (List.range n).flatMap (fun i => [.flush i, .close i])

/-- The result of a pipeline run: terminal error, observed sink calls, and
the final counters/buffers. -/
structure RunResult where
  err : Option String
  trace : List SinkEv
  total : Nat
  matched : Nat
  ring : Option (Ring LogEntry)

/-- `pipeline.Run`: reject an empty sink list up front; stream; on a write
error return it immediately (no flush/close happens); on normal
exhaustion flush and close every sink, ignore their errors and return
nil. -/
def runPipeline (cfg : PipelineConfig) (source : List LogEntry) : RunResult :=
  if cfg.sinks.isEmpty then
    { err := some "pipeline: at least one sink is required", trace := [],
      total := 0, matched := 0, ring := cfg.ringBuf }
  else
    let st0 : PipeState :=
      { total := 0, matched := 0, ring := cfg.ringBuf,
        ctxSt := cfg.ctx.map Prod.snd, trace := [] }
    let r := streamPhase cfg st0 source
    match r.2 with
    | some err =>
      { err := some err, trace := r.1.trace, total := r.1.total,
        matched := r.1.matched, ring := r.1.ring }
    | none =>
      { err := none, trace := r.1.trace ++ drainTrace cfg.sinks.length,
        total := r.1.total, matched := r.1.matched, ring := r.1.ring }

/-! ### Concrete scenario inputs used by the claims -/

/-- An entry carrying just a message, as the scenario lines. -/
def msgEntry (m : String) : LogEntry := { message := m }

/-- The context-window scenario: before=2, after=1, wrapped chain matching
exactly the line `c`, lines a,b,c,d,e in order; the messages emitted. -/
def ctxScenarioOut : List String :=
  ((ContextBuffer.processAll (fun e => (e.message == "c", e))
      (NewContextBuffer 2 1)
      (["a", "b", "c", "d", "e"].map msgEntry)).1).map LogEntry.message

/-- The rate-detector scenario: 1,1,1,10 events in four consecutive
one-second buckets (window 10s, threshold 3.0). -/
def rateScenarioTimes : List Nat :=
  [0, nsPerSec, 2 * nsPerSec] ++ List.replicate 10 (3 * nsPerSec)

/-- The spike reports of the scenario's thirteen record calls, in order. -/
def rateScenarioTrace : List Bool :=
  (RateDetector.recordAll (NewRateDetector (10 * (nsPerSec : Int)) 3) rateScenarioTimes).1

/-- The mixed anonymous/named grok pattern of the C5 failing input. -/
def grokMixedPattern : String := "%\x7bIP\x7d %\x7bWORD:method\x7d"

/-- Its compilation result (tokens and field-name slots). -/
def grokMixedCompiled : List GrokTok × List String :=
  (compileGrokPattern grokMixedPattern).toOption.getD ([], [])

/-- The all-named variant from the spec's example. -/
def grokNamedPattern : String := "%\x7bIP:client\x7d %\x7bWORD:method\x7d"

/-- Its compilation result. -/
def grokNamedCompiled : List GrokTok × List String :=
  (compileGrokPattern grokNamedPattern).toOption.getD ([], [])

/-- The inductive invariant tying a ring state to the list `xs` of all
entries pushed so far into a fresh ring of capacity `C`: the head is the
push count modulo `C`, the count is capped at `C`, the dropped counter is
the excess, and the snapshot is the last `C` pushes, oldest first. -/
def ringInv {α : Type} (C : Nat) (xs : List α) (r : Ring α) : Prop :=
  r.capacity = C ∧ r.entries.length = C ∧ r.head = xs.length % C ∧
  r.count = min xs.length C ∧ r.dropped = xs.length - min xs.length C ∧
  Ring.Snapshot r = xs.drop (xs.length - C)

/-- Is this sink event a write? -/
def SinkEv.isWrite : SinkEv → Bool
  | .write _ _ => true
  | .flush _ => false
  | .close _ => false

/-! ### C10 — non-positive ring capacity -/

/-- C10: constructing a ring buffer with capacity ≤ 0 does not fail; the
constructor substitutes the default capacity 1024, so the resulting state
is the same as for an explicit 1024 and `Cap` returns 1024. -/
theorem newRing_nonpositive_default (c : Int) (hc : c ≤ 0) :
    NewRing LogEntry c = NewRing LogEntry 1024 ∧ (NewRing LogEntry c).Cap = 1024 := by
  have h1 : NewRing LogEntry c = mkRing LogEntry 1024 := by
    rw [NewRing, if_pos hc]
  have h2 : NewRing LogEntry 1024 = mkRing LogEntry 1024 := by
    rw [NewRing, if_neg (by norm_num)]
    rfl
  exact ⟨h1.trans h2.symm, by rw [h1]; rfl⟩

/-- Witness for C10 at capacity −3. -/
theorem newRing_nonpositive_default_witness :
    NewRing LogEntry (-3) = NewRing LogEntry 1024 ∧ (NewRing LogEntry (-3)).Cap = 1024 :=
  newRing_nonpositive_default (-3) (by decide)

/-! ### C8 — pool reset -/

/-- C8 counterexample: the pool's `Get` does not reset the timestamp —
the acquired entry retains whatever timestamp the recycled entry carried,
contradicting the claim that no mutable field (timestamp included)
retains any value beyond the reset state. -/
theorem poolGet_timestamp_retained_cex :
    (poolGet { timestamp := 42, message := "m", stream := "stdout" }).timestamp = 42 ∧
    (poolGet { timestamp := 43, message := "m", stream := "stdout" }).timestamp = 43 ∧
    (42 : Nat) ≠ 0 := by
  refine ⟨rfl, rfl, by decide⟩

/-- C8 amended: acquiring an entry resets the field map, message, raw
span, stream, source, level and sequence number — every mutable field
except the timestamp, which keeps its previous value. -/
theorem poolGet_resets_all_but_timestamp (e : LogEntry) :
    poolGet e = { timestamp := e.timestamp, stream := "", level := .unknown,
                  source := "", message := "", fields := [], raw := [], seq := 0 } := rfl

/-! ### C3 — context-window scenario -/

/-- C3 counterexample: with before=2, after=1 and only line c matching,
the code emits [a, b, c, d] — line a lies inside the two-line
before-window and is emitted, so the output is not [b, c, d]. -/
theorem ctxScenario_not_bcd_cex :
    ctxScenarioOut = ["a", "b", "c", "d"] ∧ ctxScenarioOut ≠ ["b", "c", "d"] := by
  constructor
  · decide
  · decide

/-- C3 amended: for before=2 and after=1 over lines [a,b,c,d,e] with only
c matching, the emission is exactly [a, b, c, d]: both a and b lie within
the two-line before-window, and e is excluded because the after-counter
is exhausted after d. -/
theorem ctxScenario_abcd :
    ctxScenarioOut = ["a", "b", "c", "d"] := by decide

/-! ### C7 — evaluation order in the context window -/

/-- C7 counterexample: the context window evaluates the wrapped chain
before storing the entry, so the history copy reflects the chain's
mutation — wrapping a level filter over an unknown-level ERROR message
stores a copy whose level is already the cached `error`, not the
pre-evaluation `unknown` the claim requires. -/
theorem ctxStoresPostEvaluation_cex :
    ((ContextBuffer.Process (levelFilterMatch [Level.error])
        (NewContextBuffer 1 0) (msgEntry "ERROR boom")).2.ringBuf.getD 0 default).level
      = Level.error ∧
    (msgEntry "ERROR boom").level = Level.unknown ∧ Level.error ≠ Level.unknown := by
  refine ⟨by decide, rfl, by decide⟩

/-- C7 amended: on receiving an entry the context window first evaluates
the wrapped chain and only then appends the entry to its circular history
(overwriting the oldest slot); consequently the stored copy is the
entry's state after the evaluation, including any level caching the
evaluation performed. -/
theorem ctxStoresPostEvaluation (f : LogEntry → Bool × LogEntry)
    (cb : ContextBuffer) (e : LogEntry) :
    (ContextBuffer.Process f cb e).2.ringBuf
      = cb.ringBuf.set (cb.ringPos % cb.ringBuf.length) (f e).2 ∧
    (ContextBuffer.Process f cb e).2.ringPos = cb.ringPos + 1 := by
  unfold ContextBuffer.Process
  dsimp only
  split
  · exact ⟨rfl, rfl⟩
  · split
    · exact ⟨rfl, rfl⟩
    · exact ⟨rfl, rfl⟩

/-! ### C6 — level detection priority -/

/-- C6 counterexample: the message contains both an INFO token and an
ERROR token; the claim's priority table lists the ERROR group first, yet
detection (and the cached level) yields `info`, because the scan takes
the leftmost token of the message, not the highest-priority group. -/
theorem detectLevel_leftmost_cex :
    DetectLevel "INFO then ERROR" = Level.info ∧
    (levelFilterMatch [Level.error] (msgEntry "INFO then ERROR")).2.level = Level.info ∧
    Level.info ≠ Level.error := by
  refine ⟨by decide, by decide, by decide⟩

/-- C6 amended: lazy detection scans the message left to right for
word-delimited level tokens (case-insensitive) and the leftmost token
wins; the keyword table only maps the matched token to its level.  For
every two-token message built from the table's keywords the detected
level is the left token's, and the detected level is cached onto the
entry. -/
theorem detectLevel_leftmost_and_cached (allowed : List Level) (e : LogEntry)
    (he : e.level = Level.unknown) :
    (levelFilterMatch allowed e).2.level = DetectLevel e.message ∧
    (levelTokens.all (fun k1 => levelTokens.all (fun k2 =>
        DetectLevel (k1 ++ " " ++ k2) == levelOfKeyword k1))) = true := by
  constructor
  · simp [levelFilterMatch, he]
  · decide

/-- Witness for C6 on a concrete unknown-level entry. -/
theorem detectLevel_leftmost_and_cached_witness :
    (levelFilterMatch [Level.error] (msgEntry "INFO then ERROR")).2.level
      = DetectLevel (msgEntry "INFO then ERROR").message ∧
    (levelTokens.all (fun k1 => levelTokens.all (fun k2 =>
        DetectLevel (k1 ++ " " ++ k2) == levelOfKeyword k1))) = true :=
  detectLevel_leftmost_and_cached [Level.error] (msgEntry "INFO then ERROR") rfl

/-! ### C5 — grok capture alignment -/

/-- C5: compiling the mixed pattern yields one slot per token — an empty
slot for the anonymous token and `method` for the named one — but the
anonymous token compiles to a non-capturing group, so the submatch list
of a successful match has only one capture and the guard `i+1 < len`
never assigns `method`: the parse reports success yet extracts nothing.
The all-named pattern from the spec's example populates both fields,
showing the misalignment is specific to anonymous-before-named
patterns. -/
theorem grok_mixed_capture_misalignment :
    grokMixedCompiled.2 = ["", "method"] ∧
    grokParse grokMixedCompiled.1 grokMixedCompiled.2 (msgEntry "10.0.0.1 GET")
      = (true, msgEntry "10.0.0.1 GET") ∧
    grokParse grokNamedCompiled.1 grokNamedCompiled.2 (msgEntry "10.0.0.1 GET")
      = (true, { msgEntry "10.0.0.1 GET" with
                 fields := [("client", "10.0.0.1"), ("method", "GET")] }) := by
  refine ⟨by decide, by decide, by decide⟩

/-! ### C4 — rate-detector spike condition -/

/-- A spiking detector has at least 3 buckets and its latest bucket
exceeds `threshold ×` the average of the earlier buckets. -/
lemma isSpiking_characterization (r : RateDetector) (h : r.isSpiking = true) :
    3 ≤ r.buckets.length ∧
    ((r.buckets.getLastD (0, 0)).2 : ℚ) >
      ((r.buckets.dropLast.map Prod.snd).sum : ℚ) /
        ((r.buckets.length - 1 : Nat) : ℚ) * r.threshold := by
  unfold RateDetector.isSpiking at h
  split at h
  · exact absurd h (by simp)
  · next hlen =>
    dsimp only at h
    split at h
    · exact absurd h (by simp)
    · next hsum =>
      have hgt := of_decide_eq_true h
      have hlen3 : 3 ≤ r.buckets.length := by omega
      refine ⟨hlen3, ?_⟩
      set L := r.buckets.length with hL
      set s : ℤ := (r.buckets.dropLast.map Prod.snd).sum with hs
      set lat : ℤ := (r.buckets.getLastD (0, 0)).2 with hlat
      have hden : (0 : ℚ) < (r.threshold.den : ℚ) := by
        exact_mod_cast r.threshold.den_pos
      have h1L : 1 ≤ L := by omega
      have hn1 : (0 : ℚ) < ((L - 1 : Nat) : ℚ) := by
        have : 0 < L - 1 := by omega
        exact_mod_cast this
      have hcastL : ((L - 1 : Nat) : ℚ) = ((L : ℤ) - 1 : ℤ) := by
        push_cast [Nat.cast_sub h1L]
        ring
      have hθ : r.threshold = (r.threshold.num : ℚ) / (r.threshold.den : ℚ) :=
        (Rat.num_div_den _).symm
      rw [gt_iff_lt, div_mul_eq_mul_div, div_lt_iff₀ hn1, hθ, ← mul_div_assoc,
        div_lt_iff₀ hden, hcastL]
      have : ((s * r.threshold.num : ℤ) : ℚ) < ((lat * ((L : ℤ) - 1) * (r.threshold.den : ℤ) : ℤ) : ℚ) := by
        exact_mod_cast hgt
      push_cast at this ⊢
      linarith [this]

/-- C4 counterexample: recording 1,1,1,10 events in four consecutive
one-second buckets (threshold 3.0) reports the first spike already on the
fourth event of the fourth bucket (4 > 3 × 1) and on every later call of
that bucket — not exclusively on the call that reaches 10, as the claim
requires. -/
theorem rateScenario_early_spike_cex :
    rateScenarioTrace
      = [false, false, false, false, false, false, true, true, true, true, true, true, true] ∧
    rateScenarioTrace ≠ List.replicate 12 false ++ [true] := by
  refine ⟨by decide, by decide⟩

/-- C4 amended: a spike is declared only when at least 3 buckets exist and
the latest bucket exceeds `threshold ×` the average of the other buckets;
in the 1,1,1,10 scenario with threshold 3.0 the record calls report
no spike through the first three buckets and through the first three
events of the fourth bucket, and report a spike on every call from the
fourth event of the fourth bucket up to and including the tenth. -/
theorem rateRecord_spike_condition (r : RateDetector) (now : Nat)
    (h : (RateDetector.Record now r).1 = true) :
    3 ≤ (RateDetector.Record now r).2.buckets.length ∧
    (((RateDetector.Record now r).2.buckets.getLastD (0, 0)).2 : ℚ) >
      (((RateDetector.Record now r).2.buckets.dropLast.map Prod.snd).sum : ℚ) /
        (((RateDetector.Record now r).2.buckets.length - 1 : Nat) : ℚ)
        * (RateDetector.Record now r).2.threshold ∧
    rateScenarioTrace
      = [false, false, false, false, false, false, true, true, true, true, true, true, true] := by
  have hs : (RateDetector.Record now r).2.isSpiking = true := h
  have hc := isSpiking_characterization _ hs
  exact ⟨hc.1, hc.2, by decide⟩

/-- Witness for C4 on a concrete spiking record call. -/
theorem rateRecord_spike_condition_witness :
    3 ≤ (RateDetector.Record (3 * nsPerSec)
          { window := 10 * nsPerSec, threshold := 3,
            buckets := [(0, 1), (nsPerSec, 1), (2 * nsPerSec, 1), (3 * nsPerSec, 9)] }).2.buckets.length :=
  (rateRecord_spike_condition
    { window := 10 * nsPerSec, threshold := 3,
      buckets := [(0, 1), (nsPerSec, 1), (2 * nsPerSec, 1), (3 * nsPerSec, 9)] }
    (3 * nsPerSec) (by decide)).1

/-! ### C9 — JSON round-trip -/

/-- C9: serializing an entry to the JSON-lines wire shape and parsing it
back preserves stream, level, message, source and fields exactly and the
timestamp to millisecond precision; the level key is omitted exactly when
the level is unknown, source exactly when empty, fields exactly when
empty, and an omitted-when-empty key never appears holding an empty
string or empty object. -/
theorem json_roundtrip (e : LogEntry) :
    (jsonParse (jsonWrite e)).stream = e.stream ∧
    (jsonParse (jsonWrite e)).level = e.level ∧
    (jsonParse (jsonWrite e)).message = e.message ∧
    (jsonParse (jsonWrite e)).source = e.source ∧
    (jsonParse (jsonWrite e)).fields = e.fields ∧
    (jsonParse (jsonWrite e)).timestamp / nsPerMs = e.timestamp / nsPerMs ∧
    ((jsonWrite e).level = none ↔ e.level = .unknown) ∧
    ((jsonWrite e).source = none ↔ e.source = "") ∧
    ((jsonWrite e).fields = none ↔ e.fields = []) ∧
    (jsonWrite e).level ≠ some "" ∧ (jsonWrite e).source ≠ some "" ∧
    (jsonWrite e).fields ≠ some [] := by
  refine ⟨rfl, ?_, rfl, ?_, ?_, ?_, ?_, ?_, ?_, ?_, ?_, ?_⟩
  · cases hl : e.level <;> simp [jsonWrite, jsonParse, hl] <;> decide
  · by_cases hs : e.source = "" <;> simp [jsonWrite, jsonParse, hs]
  · by_cases hf : e.fields = [] <;> simp [jsonWrite, jsonParse, hf]
  · show e.timestamp / nsPerMs * nsPerMs / nsPerMs = e.timestamp / nsPerMs
    exact Nat.mul_div_cancel _ (by norm_num [nsPerMs])
  · cases hl : e.level <;> simp [jsonWrite, hl]
  · by_cases hs : e.source = "" <;> simp [jsonWrite, hs]
  · by_cases hf : e.fields = [] <;> simp [jsonWrite, hf]
  · cases hl : e.level <;> simp [jsonWrite, hl] <;> decide
  · by_cases hs : e.source = "" <;> simp [jsonWrite, hs]
  · by_cases hf : e.fields = [] <;> simp [jsonWrite, hf]

/-! ### C1 — ring buffer correctness -/

/-- The fresh ring satisfies the invariant for the empty push history. -/
lemma ringInv_init {α : Type} [Inhabited α] {C : Nat} (hC : 0 < C) :
    ringInv C ([] : List α) (mkRing α C) := by
  refine ⟨rfl, by simp [mkRing], by simp [mkRing], by simp [mkRing], by simp [mkRing], ?_⟩
  simp [Ring.Snapshot, mkRing, hC]

/-- The projections of one `Push`. -/
lemma push_projections {α : Type} (r : Ring α) (e : α) :
    (Ring.Push e r).entries = r.entries.set r.head e ∧
    (Ring.Push e r).head = (r.head + 1) % r.capacity ∧
    (Ring.Push e r).count = (if r.count < r.capacity then r.count + 1 else r.count) ∧
    (Ring.Push e r).capacity = r.capacity ∧
    (Ring.Push e r).dropped = (if r.count < r.capacity then r.dropped else r.dropped + 1) :=
  ⟨rfl, rfl, rfl, rfl, rfl⟩

/-- One push preserves the invariant, extending the history. -/
lemma ringInv_push {α : Type} {C : Nat} (hC : 0 < C) {xs : List α} {r : Ring α}
    (h : ringInv C xs r) (e : α) : ringInv C (xs ++ [e]) (Ring.Push e r) := by
  obtain ⟨hcap, hlen, hhead, hcount, hdrop, hsnap⟩ := h
  obtain ⟨hPe, hPh, hPc, hPcap, hPd⟩ := push_projections r e
  set L := xs.length with hLdef
  have hlenapp : (xs ++ [e]).length = L + 1 := by simp [hLdef]
  have hPlen : (Ring.Push e r).entries.length = C := by
    rw [hPe, List.length_set, hlen]
  by_cases hLC : L < C
  · -- the ring is not yet full
    have hcnt : r.count = L := by rw [hcount]; omega
    have hheadL : r.head = L := by rw [hhead]; exact Nat.mod_eq_of_lt hLC
    have hlt : r.count < r.capacity := by rw [hcnt, hcap]; exact hLC
    have hcnt1 : (Ring.Push e r).count = L + 1 := by rw [hPc, if_pos hlt, hcnt]
    have hd1 : (Ring.Push e r).dropped = r.dropped := by rw [hPd, if_pos hlt]
    have hh1 : (Ring.Push e r).head = (L + 1) % C := by rw [hPh, hheadL, hcap]
    have he1 : (Ring.Push e r).entries = r.entries.set L e := by rw [hPe, hheadL]
    have htake : r.entries.take L = xs := by
      have hb : Ring.Snapshot r = r.entries.take L := by
        rw [Ring.Snapshot, if_pos hlt, hcnt]
      rw [hb] at hsnap
      rwa [Nat.sub_eq_zero_of_le (le_of_lt hLC), List.drop_zero] at hsnap
    have hset : r.entries.set L e = r.entries.take L ++ e :: r.entries.drop (L + 1) :=
      List.set_eq_take_cons_drop e (by rw [hlen]; exact hLC)
    have htklen : (r.entries.take L).length = L := by
      rw [List.length_take, hlen]; omega
    refine ⟨by rw [hPcap, hcap], hPlen, by rw [hh1, hlenapp], ?_, ?_, ?_⟩
    · rw [hcnt1, hlenapp]; omega
    · rw [hd1, hdrop, hlenapp]; omega
    · -- snapshot after the push
      have hgoalR : (xs ++ [e]).drop ((xs ++ [e]).length - C) = xs ++ [e] := by
        rw [hlenapp, Nat.sub_eq_zero_of_le (by omega), List.drop_zero]
      rw [hgoalR]
      by_cases hL1 : L + 1 < C
      · have hlt1 : (Ring.Push e r).count < (Ring.Push e r).capacity := by
          rw [hcnt1, hPcap, hcap]; exact hL1
        rw [Ring.Snapshot, if_pos hlt1, hcnt1, he1, hset]
        have hL1eq : L + 1 = (r.entries.take L).length + 1 := by rw [htklen]
        rw [hL1eq, List.take_append]
        simp [htake]
      · -- the push fills the ring exactly: L + 1 = C
        have hL1C : L + 1 = C := by omega
        have hnlt : ¬ (Ring.Push e r).count < (Ring.Push e r).capacity := by
          rw [hcnt1, hPcap, hcap]; omega
        rw [Ring.Snapshot, if_neg hnlt, hh1, hL1C, Nat.mod_self, Nat.zero_mod]
        rw [List.drop_zero, List.take_zero, List.append_nil, hcnt1, he1, hset]
        have hdropnil : r.entries.drop (L + 1) = [] :=
          List.drop_eq_nil_of_le (by rw [hlen]; omega)
        rw [hdropnil, htake]
        exact List.take_of_length_le (by rw [hlenapp])
  · -- the ring is full: C ≤ L
    have hCL : C ≤ L := by omega
    have hcnt : r.count = C := by rw [hcount]; omega
    have hnlt : ¬ r.count < r.capacity := by rw [hcnt, hcap]; omega
    set s := r.head with hsdef
    have hsC : s < C := by rw [hhead]; exact Nat.mod_lt _ hC
    have hslen : s < r.entries.length := by rw [hlen]; exact hsC
    have hcnt1 : (Ring.Push e r).count = C := by rw [hPc, if_neg hnlt, hcnt]
    have hd1 : (Ring.Push e r).dropped = r.dropped + 1 := by rw [hPd, if_neg hnlt]
    have hh1 : (Ring.Push e r).head = (s + 1) % C := by rw [hPh, hcap]
    have he1 : (Ring.Push e r).entries = r.entries.set s e := hPe
    have hnlt1 : ¬ (Ring.Push e r).count < (Ring.Push e r).capacity := by
      rw [hcnt1, hPcap, hcap]; omega
    have hsnapfull : r.entries.drop s ++ r.entries.take s = xs.drop (L - C) := by
      have hb : Ring.Snapshot r = r.entries.drop s ++ r.entries.take s := by
        rw [Ring.Snapshot, if_neg hnlt, ← hsdef, Nat.mod_eq_of_lt (by rw [hcap]; exact hsC)]
        refine List.take_of_length_le ?_
        rw [List.length_append, List.length_drop, List.length_take, hlen, hcnt]
        omega
      rw [← hb, hsnap]
    have hset : r.entries.set s e = r.entries.take s ++ e :: r.entries.drop (s + 1) :=
      List.set_eq_take_cons_drop e hslen
    have htklen : (r.entries.take s).length = s := by
      rw [List.length_take, hlen]; omega
    have hRHS : (xs ++ [e]).drop ((xs ++ [e]).length - C)
        = r.entries.drop (s + 1) ++ r.entries.take s ++ [e] := by
      rw [hlenapp]
      have h1 : L + 1 - C ≤ xs.length := by rw [← hLdef]; omega
      rw [List.drop_append_of_le_length h1]
      have h2 : xs.drop (L + 1 - C) = (xs.drop (L - C)).drop 1 := by
        rw [List.drop_drop]; congr 1; omega
      rw [h2, ← hsnapfull, List.drop_eq_getElem_cons hslen]
      simp only [List.cons_append, List.drop_succ_cons, List.drop_zero, List.append_assoc]
    refine ⟨by rw [hPcap, hcap], hPlen, ?_, ?_, ?_, ?_⟩
    · rw [hh1, hlenapp, hhead]
      exact (Nat.ModEq.add_right 1 (Nat.mod_modEq L C))
    · rw [hcnt1, hlenapp]; omega
    · rw [hd1, hdrop, hlenapp]; omega
    · rw [Ring.Snapshot, if_neg hnlt1, hRHS, hh1, hPcap, hcap, hcnt1, he1]
      have hmm : (s + 1) % C % C = (s + 1) % C := Nat.mod_mod_of_dvd _ dvd_rfl
      rw [hmm]
      by_cases hs1 : s + 1 < C
      · rw [Nat.mod_eq_of_lt hs1, hset]
        have hL1eq : s + 1 = (r.entries.take s).length + 1 := by rw [htklen]
        have hd : (r.entries.take s ++ e :: r.entries.drop (s + 1)).drop (s + 1)
            = r.entries.drop (s + 1) := by
          rw [hL1eq, List.drop_append]
          simp
        have ht : (r.entries.take s ++ e :: r.entries.drop (s + 1)).take (s + 1)
            = r.entries.take s ++ [e] := by
          rw [hL1eq, List.take_append]
          simp
        rw [hd, ht]
        refine (List.take_of_length_le ?_).trans (by simp)
        rw [List.length_append, List.length_append, List.length_drop, htklen, hlen]
        simp
        omega
      · have hs1C : s + 1 = C := by omega
        have hdropnil : r.entries.drop (s + 1) = [] :=
          List.drop_eq_nil_of_le (by rw [hlen]; omega)
        have hlen2 : (r.entries.take s ++ e :: r.entries.drop (s + 1)).length ≤ C := by
          rw [List.length_append, htklen, hdropnil]
          simp
          omega
        rw [hs1C, Nat.mod_self]
        simp only [List.drop_zero, List.take_zero, List.append_nil]
        rw [hset, List.take_of_length_le hlen2, hdropnil]
        simp [hlen]

/-- Pushing a list extends the invariant along the whole fold. -/
lemma ringInv_pushAll {α : Type} {C : Nat} (hC : 0 < C) :
    ∀ (xs : List α) (ys : List α) (r : Ring α), ringInv C ys r →
      ringInv C (ys ++ xs) (Ring.pushAll r xs) := by
  intro xs
  induction xs with
  | nil => intro ys r h; simpa [Ring.pushAll] using h
  | cons e rest ih =>
    intro ys r h
    have h1 := ringInv_push hC h e
    have h2 := ih (ys ++ [e]) (Ring.Push e r) h1
    rw [List.append_assoc] at h2
    simpa [Ring.pushAll] using h2

/-- The invariant holds for every push history on a fresh ring. -/
lemma ringInv_fresh {α : Type} [Inhabited α] {C : Nat} (hC : 0 < C) (xs : List α) :
    ringInv C xs (Ring.pushAll (mkRing α C) xs) := by
  have := ringInv_pushAll hC xs [] (mkRing α C) (ringInv_init hC)
  simpa using this

/-- C1: pushing more than C entries into a fresh ring of capacity C, the
snapshot is exactly the last C pushed entries in push (chronological,
oldest-first) order — regardless of write-position wraparound — and the
dropped counter equals the number of pushes minus C; for every push
history the count never exceeds the capacity; and once the ring is full,
one further push keeps the count at C, increments the dropped counter by
exactly one, and the snapshot drops exactly the oldest entry and appends
the new one. -/
theorem ring_snapshot_chronological (C : Nat) (hC : 0 < C) (xs : List LogEntry)
    (e : LogEntry) (hlen : C < xs.length) :
    Ring.Snapshot (Ring.pushAll (mkRing LogEntry C) xs) = xs.drop (xs.length - C) ∧
    (Ring.Snapshot (Ring.pushAll (mkRing LogEntry C) xs)).length = C ∧
    Ring.Dropped (Ring.pushAll (mkRing LogEntry C) xs) = xs.length - C ∧
    (∀ ys : List LogEntry,
      Ring.Len (Ring.pushAll (mkRing LogEntry C) ys)
        ≤ Ring.Cap (Ring.pushAll (mkRing LogEntry C) ys)) ∧
    Ring.Len (Ring.Push e (Ring.pushAll (mkRing LogEntry C) xs)) = C ∧
    Ring.Dropped (Ring.Push e (Ring.pushAll (mkRing LogEntry C) xs))
      = Ring.Dropped (Ring.pushAll (mkRing LogEntry C) xs) + 1 ∧
    Ring.Snapshot (Ring.Push e (Ring.pushAll (mkRing LogEntry C) xs))
      = (Ring.Snapshot (Ring.pushAll (mkRing LogEntry C) xs)).drop 1 ++ [e] := by
  obtain ⟨hcap, hl, hh, hc, hd, hs⟩ := ringInv_fresh (α := LogEntry) hC xs
  obtain ⟨hcap1, hl1, hh1, hc1, hd1, hs1⟩ :=
    ringInv_push hC (ringInv_fresh (α := LogEntry) hC xs) e
  have hCle : C ≤ xs.length := le_of_lt hlen
  refine ⟨hs, ?_, ?_, ?_, ?_, ?_, ?_⟩
  · rw [hs, List.length_drop]; omega
  · rw [Ring.Dropped, hd]; omega
  · intro ys
    obtain ⟨hcap2, _, _, hc2, _, _⟩ := ringInv_fresh (α := LogEntry) hC ys
    rw [Ring.Len, Ring.Cap, hc2, hcap2]; omega
  · rw [Ring.Len, hc1]; simp; omega
  · rw [Ring.Dropped, Ring.Dropped, hd1, hd]; simp; omega
  · rw [hs1, hs]
    have hstep : (xs ++ [e]).length - C = (xs.length - C) + 1 := by simp; omega
    rw [hstep, List.drop_append_of_le_length (by omega), List.drop_drop]

/-- Witness for C1: capacity 2, three pushes — the snapshot is the last
two entries in order. -/
theorem ring_snapshot_chronological_witness :
    Ring.Snapshot (Ring.pushAll (mkRing LogEntry 2)
        [msgEntry "1", msgEntry "2", msgEntry "3"])
      = [msgEntry "1", msgEntry "2", msgEntry "3"].drop
          ([msgEntry "1", msgEntry "2", msgEntry "3"].length - 2) :=
  (ring_snapshot_chronological 2 (by decide)
    [msgEntry "1", msgEntry "2", msgEntry "3"] (msgEntry "4") (by decide)).1

/-! ### C2 — pipeline flush/close behaviour -/

/-- Every event emitted by `writeSinks` is a write. -/
lemma writeSinks_only_writes :
    ∀ (sinks : List SinkModel) (i : Nat) (e : LogEntry) (ev : SinkEv),
      ev ∈ (writeSinks sinks i e).1 → ev.isWrite = true := by
  intro sinks
  induction sinks with
  | nil => intro i e ev h; simp [writeSinks] at h
  | cons s rest ih =>
    intro i e ev h
    rw [writeSinks] at h
    cases hw : s.writeRes e with
    | some err => rw [hw] at h; simp at h; rw [h]; rfl
    | none =>
      rw [hw] at h
      simp at h
      rcases h with h | h
      · rw [h]; rfl
      · exact ih (i + 1) e ev h

/-- `deliverAll` only appends write events to the trace. -/
lemma deliverAll_only_writes :
    ∀ (es : List LogEntry) (sinks : List SinkModel) (st : PipeState) (ev : SinkEv),
      ev ∈ (deliverAll sinks st es).1.trace → ev ∈ st.trace ∨ ev.isWrite = true := by
  intro es
  induction es with
  | nil => intro sinks st ev h; exact Or.inl h
  | cons e rest ih =>
    intro sinks st ev h
    rw [deliverAll] at h
    cases hw : (writeSinks sinks 0 e).2 with
    | some err =>
      rw [hw] at h
      simp at h
      rcases h with h | h
      · exact Or.inl h
      · exact Or.inr (writeSinks_only_writes sinks 0 e ev h)
    | none =>
      rw [hw] at h
      rcases ih sinks _ ev h with h2 | h2
      · simp at h2
        rcases h2 with h2 | h2
        · exact Or.inl h2
        · exact Or.inr (writeSinks_only_writes sinks 0 e ev h2)
      · exact Or.inr h2

/-- One pipeline step only appends write events to the trace. -/
lemma stepEntry_only_writes (cfg : PipelineConfig) (st : PipeState) (e : LogEntry)
    (ev : SinkEv) (h : ev ∈ (stepEntry cfg st e).1.trace) :
    ev ∈ st.trace ∨ ev.isWrite = true := by
  rw [stepEntry] at h
  dsimp only at h
  repeat' split at h
  all_goals
    first
      | exact Or.inl (by simpa using h)
      | (rcases deliverAll_only_writes _ _ _ ev h with h2 | h2
         exacts [Or.inl (by simpa using h2), Or.inr h2])

/-- The whole streaming phase only appends write events to the trace. -/
lemma streamPhase_only_writes :
    ∀ (source : List LogEntry) (cfg : PipelineConfig) (st : PipeState) (ev : SinkEv),
      ev ∈ (streamPhase cfg st source).1.trace → ev ∈ st.trace ∨ ev.isWrite = true := by
  intro source
  induction source with
  | nil => intro cfg st ev h; exact Or.inl h
  | cons e rest ih =>
    intro cfg st ev h
    rw [streamPhase] at h
    cases hr : (stepEntry cfg st e).2 with
    | some err =>
      rw [hr] at h
      exact stepEntry_only_writes cfg st e ev h
    | none =>
      rw [hr] at h
      rcases ih cfg _ ev h with h2 | h2
      · exact stepEntry_only_writes cfg st e ev h2
      · exact Or.inr h2

/-- Flush and close events for every sink index appear in the drain
trace. -/
lemma drainTrace_mem (i n : Nat) (hi : i < n) :
    SinkEv.flush i ∈ drainTrace n ∧ SinkEv.close i ∈ drainTrace n := by
  constructor <;>
    · rw [drainTrace]
      rw [List.mem_flatMap]
      exact ⟨i, List.mem_range.mpr hi, by simp⟩

/-- C2 counterexample: a consumer write error aborts the run immediately —
no consumer (neither the failing one nor the later-registered one)
receives a flush or close call, contradicting the claim that flush/close
are never skipped; and a flush error during draining is discarded rather
than surfaced, so the run's terminal error is nil. -/
theorem pipeline_skips_flush_close_cex :
    (runPipeline
      { filters := none,
        sinks := [{ name := "s1", writeRes := fun _ => some "boom",
                    flushRes := none, closeRes := none },
                  { name := "s2", writeRes := fun _ => none,
                    flushRes := none, closeRes := none }],
        ctx := none, ringBuf := none } [msgEntry "x"]).err
      = some "pipeline: write to s1: boom" ∧
    (runPipeline
      { filters := none,
        sinks := [{ name := "s1", writeRes := fun _ => some "boom",
                    flushRes := none, closeRes := none },
                  { name := "s2", writeRes := fun _ => none,
                    flushRes := none, closeRes := none }],
        ctx := none, ringBuf := none } [msgEntry "x"]).trace
      = [SinkEv.write 0 (msgEntry "x")] ∧
    (runPipeline
      { filters := none,
        sinks := [{ name := "s1", writeRes := fun _ => none,
                    flushRes := some "flush boom", closeRes := none }],
        ctx := none, ringBuf := none } []).err = none := by
  refine ⟨by decide, by decide, by decide⟩

/-- C2 amended: a consumer write error is surfaced immediately as the
run's terminal error and no consumer receives flush or close; only when
the stream drains without a write error does every registered consumer
receive its flush and close call (in registration order), and errors
returned by flush or close are discarded — the run then reports no
error. -/
theorem pipeline_flush_close_policy (cfg : PipelineConfig) (source : List LogEntry)
    (i : Nat) (hi : i < cfg.sinks.length) :
    ((runPipeline cfg source).err = none →
      SinkEv.flush i ∈ (runPipeline cfg source).trace ∧
      SinkEv.close i ∈ (runPipeline cfg source).trace) ∧
    ((runPipeline cfg source).err ≠ none →
      SinkEv.flush i ∉ (runPipeline cfg source).trace ∧
      SinkEv.close i ∉ (runPipeline cfg source).trace) := by
  have hne : cfg.sinks.isEmpty = false := by
    cases hsk : cfg.sinks with
    | nil => rw [hsk] at hi; simp at hi
    | cons a l => simp [hsk]
  rw [runPipeline, hne]
  dsimp only [Bool.false_eq_true, if_false]
  set st0 : PipeState :=
    { total := 0, matched := 0, ring := cfg.ringBuf,
      ctxSt := cfg.ctx.map Prod.snd, trace := [] } with hst0
  cases hr : (streamPhase cfg st0 source).2 with
  | none =>
    dsimp only
    constructor
    · intro _
      exact ⟨List.mem_append_right _ (drainTrace_mem i cfg.sinks.length hi).1,
             List.mem_append_right _ (drainTrace_mem i cfg.sinks.length hi).2⟩
    · intro hcontra
      exact absurd rfl hcontra
  | some err =>
    dsimp only
    constructor
    · intro hcontra
      exact absurd hcontra (by simp)
    · intro _
      constructor
      · intro hmem
        rcases streamPhase_only_writes source cfg st0 _ hmem with h2 | h2
        · rw [hst0] at h2; simp at h2
        · simp [SinkEv.isWrite] at h2
      · intro hmem
        rcases streamPhase_only_writes source cfg st0 _ hmem with h2 | h2
        · rw [hst0] at h2; simp at h2
        · simp [SinkEv.isWrite] at h2

/-- Witness for C2: with one always-succeeding sink and one entry, the run
ends without error and the sink is flushed and closed. -/
theorem pipeline_flush_close_policy_witness :
    SinkEv.flush 0 ∈ (runPipeline
      { filters := none,
        sinks := [{ name := "ok", writeRes := fun _ => none,
                    flushRes := none, closeRes := none }],
        ctx := none, ringBuf := none } [msgEntry "x"]).trace ∧
    SinkEv.close 0 ∈ (runPipeline
      { filters := none,
        sinks := [{ name := "ok", writeRes := fun _ => none,
                    flushRes := none, closeRes := none }],
        ctx := none, ringBuf := none } [msgEntry "x"]).trace :=
  (pipeline_flush_close_policy
    { filters := none,
      sinks := [{ name := "ok", writeRes := fun _ => none,
                  flushRes := none, closeRes := none }],
      ctx := none, ringBuf := none } [msgEntry "x"] 0 (by decide)).1 (by decide)

end Lx
